import Mathlib

/-!
Verification of the job-worker execution engine.

This file gives a shallow embedding of the engine's core code — the job
status ratchet, the stream buffer and its per-consumer readers, the two
ByteBuffer variants, exit-code extraction, the once-only start logic, and
the worker's job-map operations — and proves or refutes the specification's
claims about them.

Bytes are modelled as naturals, byte slices as lists, Go maps as
association lists, and each stateful method as an explicit state-passing
function.  Concurrent histories are modelled as linearized traces of
operations (every interleaving of the mutex-protected methods is some
such trace).
-/

namespace JobWorker

/-- A byte of job output (its value range is irrelevant to the properties
proved here). -/
abbrev Byte := Nat

/-! ## Job status (pkg/job: Status enum and (*Job).setStatus) -/

/-- `StatusUnspecified`, the zero value of the `Status` enum
(`StatusUnspecified Status = iota`). -/
def statusUnspecified : Nat := 0

/-- `StatusNotStarted` (ordinal 1 in the enum). -/
def statusNotStarted : Nat := 1

/-- `StatusRunning` (ordinal 2 in the enum). -/
def statusRunning : Nat := 2

/-- `StatusCompleted` (ordinal 3 in the enum). -/
def statusCompleted : Nat := 3

/-- `StatusStopped` (ordinal 4 in the enum). -/
def statusStopped : Nat := 4

/-- `(*Job).setStatus(st)`: `if st <= j.status { return }; j.status = st`.
Returns the new value of the `status` field given the requested value `st`
and the current value `cur`.  The atomic compare-and-swap variant computes
the same function once the loop is linearized: it retries until the load
and the swap agree, and each iteration either returns with the field
unchanged (`st <= cur`) or installs `st`. -/
def setStatus (st cur : Nat) : Nat := if st ≤ cur then cur else st

/-- The call sites of `setStatus` on a single job: `New` requests
`StatusNotStarted`, a successful `Start` requests `StatusRunning`, a failed
`Start` requests `StatusStartError` (a constant whose ordinal is not fixed
by the sources in scope, so it is a parameter `se` below; in the
compare-and-swap variant a failed `Start` performs no status write at all,
which is the `se = statusUnspecified` instance), `wait` requests
`StatusCompleted` and `Stop` requests `StatusStopped`. -/
inductive JobEvent
  | new
  | startOk
  | startFail
  | wait
  | stop
deriving DecidableEq

/-- The status value each event passes to `setStatus`. -/
def eventTarget (se : Nat) : JobEvent → Nat
  | .new => statusNotStarted
  | .startOk => statusRunning
  | .startFail => se
  | .wait => statusCompleted
  | .stop => statusStopped

/-- The job's `status` field after a trace of events, starting from the
zero value of the field. -/
def runStatus (se : Nat) (tr : List JobEvent) : Nat :=
  tr.foldl (fun cur e => setStatus (eventTarget se e) cur) statusUnspecified

/-! ## Stream buffer and reader (safebuffer.Buffer, safereader.Reader) -/

/-- `(*Buffer).ReadOffset(offset, p)` over the buffer contents `data` with
`cap = len(p)`: if `len(p) == 0` it returns `(0, nil)`; if
`len(data) <= offset` it returns `(0, io.EOF)`; otherwise it copies
`min(len(p), len(data)-offset)` bytes starting at `offset`.  The result is
the list of bytes copied into `p` and whether `io.EOF` was returned. -/
def bufReadOffset (data : List Byte) (offset cap : Nat) : List Byte × Bool :=
  if cap = 0 then ([], false)
  else if data.length ≤ offset then ([], true)
  else ((data.drop offset).take cap, false)

/-- The observable state of one `safereader.Reader` over one
`safebuffer.Buffer`: the buffer's byte log, the reader's `offset` field,
and the concatenation of the bytes the reader's reads have returned. -/
structure RState where
  log : List Byte
  offset : Nat
  out : List Byte

/-- One linearized operation on the buffer/reader pair: a `Buffer.Write`
of payload `p`, or a `Reader.readOffset` with a destination of `cap`
bytes. -/
inductive ROp
  | write (p : List Byte)
  | read (cap : Nat)

/-- Effect of one operation.  `Write` appends to the log
(`b.buf.Write(p)`).  `readOffset` calls `ReadOffset(r.offset, p)` and, when
the error is nil, advances `offset` by the count returned; the bytes
returned to the caller are appended to `out`. -/
def rstep (s : RState) : ROp → RState
  | .write p => { s with log := s.log ++ p }
  | .read cap =>
      let r := bufReadOffset s.log s.offset cap
      { s with
        offset := if r.2 then s.offset else s.offset + r.1.length,
        out := s.out ++ r.1 }

/-- A fresh buffer with a fresh reader positioned at offset 0. -/
def rinit : RState := ⟨[], 0, []⟩

/-- State after a trace of interleaved writes and reads. -/
def runR (ops : List ROp) : RState := ops.foldl rstep rinit

/-- Concatenation of all bytes written by the trace. -/
def writesConcat (ops : List ROp) : List Byte :=
  ops.foldl (fun acc op => match op with | .write p => acc ++ p | .read _ => acc) []

/-- Reading the stream to its end: once the stream's done-signal has fired,
each `Reader.Read` performs a single `readOffset` and returns its result
(`io.EOF` at the end of the log ends an `io.ReadAll` loop).  `readToEnd`
is that loop with a destination of `cap` bytes per call, returning the
concatenation of all bytes read from position `offset` on. -/
def readToEnd (data : List Byte) (cap offset : Nat) : List Byte :=
  if h : cap = 0 ∨ data.length ≤ offset then []
  else
    (data.drop offset).take cap ++
      readToEnd data cap (offset + ((data.drop offset).take cap).length)
termination_by data.length - offset
decreasing_by
  push_neg at h
  simp only [List.length_take, List.length_drop]
  omega

/-- The reader invariant: the bytes returned so far are exactly the first
`offset` bytes of the log, and the offset never passes the end of the
log. -/
def RInv (s : RState) : Prop :=
  s.out = s.log.take s.offset ∧ s.offset ≤ s.log.length

/-! ## ByteBuffer (pkg/safebuffer/bytebuffer.go, both variants) -/

/-- The contiguous `ByteBuffer` variant: a growing `buf []byte` under a
reader-writer lock.  Its `Write` manages capacity (doubling, copying into
a fresh slice when needed) but the visible content after `Write(p)` is
always `buf ++ p`. -/
structure ByteBufferC where
  buf : List Byte
deriving DecidableEq

/-- Contiguous `(*ByteBuffer).Write`. -/
def ByteBufferC.write (b : ByteBufferC) (p : List Byte) : ByteBufferC :=
  ⟨b.buf ++ p⟩

/-- Contiguous `(*ByteBuffer).ReadOffset(offset, p)` with `cap = len(p)`:
`len(p) == 0` returns `(0, nil)`; `len(buf) <= offset` returns
`(0, io.EOF)`; otherwise it copies `min(len(p), len(buf)-offset)` bytes
from `buf[offset:]`. -/
def ByteBufferC.readOffset (b : ByteBufferC) (offset cap : Nat) : List Byte × Bool :=
  if cap = 0 then ([], false)
  else if b.buf.length ≤ offset then ([], true)
  else ((b.buf.drop offset).take cap, false)

/-- The linked-chunk `ByteBuffer` variant: an immutable singly-linked list
of `byteNode`s; each `Write` appends one node holding a copy of `p`, and
the `size` field it maintains is the sum of the chunk lengths. -/
structure ByteBufferL where
  chunks : List (List Byte)
deriving DecidableEq

/-- The `size` field of the linked variant. -/
def ByteBufferL.size (b : ByteBufferL) : Nat := (b.chunks.map List.length).sum

/-- Linked `(*ByteBuffer).Write`: appends one node (also in the
`root == nil` case, where the node becomes both root and end). -/
def ByteBufferL.write (b : ByteBufferL) (p : List Byte) : ByteBufferL :=
  ⟨b.chunks ++ [p]⟩

/-- The chunk walk inside the linked `ReadOffset`: skip nodes that end at
or before `offset`, then copy `i = min(len(p), len(data)-offset)` bytes
per node into the remaining destination, stopping early when the
destination is full (`i == len(p)`). -/
def walkChunks : List (List Byte) → Nat → Nat → List Byte
  | [], _, _ => []
  | d :: rest, offset, cap =>
    if d.length ≤ offset then walkChunks rest (offset - d.length) cap
    else
      let bs := (d.drop offset).take cap
      if bs.length = cap then bs
      else bs ++ walkChunks rest 0 (cap - bs.length)

/-- Linked `(*ByteBuffer).ReadOffset(offset, p)` with `cap = len(p)`:
`len(p) == 0` returns `(0, nil)`; `size <= offset` returns `(0, io.EOF)`;
otherwise it walks the chain, and returns `(n, nil)` when `n > 0`, else
`(0, io.EOF)`. -/
def ByteBufferL.readOffset (b : ByteBufferL) (offset cap : Nat) : List Byte × Bool :=
  if cap = 0 then ([], false)
  else if b.size ≤ offset then ([], true)
  else
    let bs := walkChunks b.chunks offset cap
    if 0 < bs.length then (bs, false) else ([], true)

/-- A contiguous buffer reached by a sequence of writes. -/
def mkBufC (writes : List (List Byte)) : ByteBufferC :=
  writes.foldl ByteBufferC.write ⟨[]⟩

/-- A linked buffer reached by the same sequence of writes. -/
def mkBufL (writes : List (List Byte)) : ByteBufferL :=
  writes.foldl ByteBufferL.write ⟨[]⟩

/-! ## Exit-code extraction ((*Job).wait and (*Job).ExitCode) -/

/-- Go `os.ProcessState` of a terminated child: it either exited with a
code or was killed by a signal. -/
inductive ProcState
  | exited (code : Int)
  | signaled (sig : Nat)
deriving DecidableEq

/-- `(*exec.ExitError).ExitCode()`: the exit code when the process exited,
and `-1` when it was killed by a signal (os/exec semantics; the
repository's own tests expect `-1` after `StopJob`). -/
def ProcState.exitCode : ProcState → Int
  | .exited c => c
  | .signaled _ => -1

/-- Result of `j.cmd.Wait()`: nil on a successful (code 0) exit, a typed
`*exec.ExitError` wrapping the process state when the child terminated
unsuccessfully (non-zero exit or killed by a signal), or some other error
(lost pid, I/O failure) that `errors.As` does not match. -/
inductive WaitResult
  | ok
  | exitErr (ps : ProcState)
  | otherErr
deriving DecidableEq

/-- `(*Job).wait`: the `exitCode` field stored before `done` is closed —
`0` when `cmdErr` is nil, `eerr.ExitCode()` when `errors.As` matches a
`*exec.ExitError`, and nothing otherwise. -/
def waitExitCode : WaitResult → Option Int
  | .ok => some 0
  | .exitErr ps => some ps.exitCode
  | .otherErr => none

/-- `(*Job).ExitCode()`: nil while the job is still running (the `done`
channel not yet closed), the stored code once it has finished. -/
def jobExitCode (done : Bool) (w : WaitResult) : Option Int :=
  if done then waitExitCode w else none

/-! ## Once-only start ((*Job).Start) -/

/-- Errors `Start` can return: `ErrAlreadyStarted`, or the error from
`j.cmd.Start()` (spawn failures identified by an opaque code). -/
inductive StartErr
  | alreadyStarted
  | spawn (e : Nat)
deriving DecidableEq

/-- The job fields the `Start` logic touches: whether `startOnce` has
already fired, the sticky `startErr`, and how many times `cmd.Start()`
(the child launch) has been invoked. -/
structure StartState where
  onceDone : Bool
  startErr : Option Nat
  launches : Nat
deriving DecidableEq

/-- A job fresh out of `New`. -/
def startInit : StartState := ⟨false, none, 0⟩

/-- One call to `(*Job).Start`, where `spawnRes` is what `j.cmd.Start()`
returns if invoked (`none` = success).  Inside `startOnce.Do` (first call
only): launch, record `startErr`, and mark `started` on success.  After
the `Do`: return `startErr` if set, else `ErrAlreadyStarted` when this
call did not start the job, else nil. -/
def startStep (spawnRes : Option Nat) (s : StartState) : StartState × Option StartErr :=
  if s.onceDone then
    (s, match s.startErr with
        | some e => some (.spawn e)
        | none => some .alreadyStarted)
  else
    (⟨true, spawnRes, s.launches + 1⟩, spawnRes.map StartErr.spawn)

/-! ## Worker job map (pkg/worker/worker.go) -/

/-- A job as the worker's map sees it: its owner, plus an opaque payload
standing in for the rest of the `*job.Job`. -/
structure WJob where
  userID : String
  payload : Nat
deriving DecidableEq

/-- The worker error shared by the three authorized operations. -/
inductive WorkerErr
  | jobNotFound
deriving DecidableEq

/-- `(*Worker).getJob`: `j, ok := w.jobs[jobID]` on the job map (an
association list here); `if !ok || j.UserID() != userID` return
`ErrJobNotFound`, else return the job. -/
def getJob (jobs : List (Nat × WJob)) (userID : String) (jobID : Nat) :
    Except WorkerErr WJob :=
  match jobs.lookup jobID with
  | none => .error .jobNotFound
  | some j => if j.userID ≠ userID then .error .jobNotFound else .ok j

/-- `(*Worker).StopJob`: look the job up, then delegate to `j.Stop()`
(abstracted as the function `stop`). -/
def stopJob (jobs : List (Nat × WJob)) (userID : String) (jobID : Nat)
    (stop : WJob → Option Nat) : Except WorkerErr (Option Nat) :=
  match getJob jobs userID jobID with
  | .error e => .error e
  | .ok j => .ok (stop j)

/-- `(*Worker).JobStatus`: look the job up, then build the status
response from the job (abstracted as the function `status`). -/
def jobStatus (jobs : List (Nat × WJob)) (userID : String) (jobID : Nat)
    (status : WJob → Nat × Option Int) : Except WorkerErr (Nat × Option Int) :=
  match getJob jobs userID jobID with
  | .error e => .error e
  | .ok j => .ok (status j)

/-- `(*Worker).JobOutput`: look the job up, then return
`j.NewOutputReader()` (abstracted as the function `reader`). -/
def jobOutput (jobs : List (Nat × WJob)) (userID : String) (jobID : Nat)
    (reader : WJob → Nat) : Except WorkerErr Nat :=
  match getJob jobs userID jobID with
  | .error e => .error e
  | .ok j => .ok (reader j)

/-! ## Worker construction (worker.New) -/

/-- The configuration fields `New` validates.  `CPUMax` is a `float32` in
the source; it is modelled as a rational, which preserves the order
comparisons `New` performs on every non-NaN value. -/
structure WConfig where
  reexecCommand : String
  cpuMax : ℚ
deriving DecidableEq

/-- Errors `worker.New` can return. -/
inductive NewErr
  | reexecCommandRequired
  | invalidCPUMax
  | blockDevFailure (e : Nat)
deriving DecidableEq

/-- `worker.New(config)`: `ReexecCommand` empty fails; then
`config.CPUMax < 0 || config.CPUMax > 1` fails with `ErrInvalidCPUMax`;
then block devices are probed (their outcome is the parameter
`blockDevs`, since it reads /sys and /proc); on success the worker holds
a deep copy of the config and the device list. -/
def workerNew (cfg : WConfig) (blockDevs : Except Nat (List String)) :
    Except NewErr (WConfig × List String) :=
  if cfg.reexecCommand = "" then .error .reexecCommandRequired
  else if cfg.cpuMax < 0 ∨ 1 < cfg.cpuMax then .error .invalidCPUMax
  else
    match blockDevs with
    | .error e => .error (.blockDevFailure e)
    | .ok bs => .ok (cfg, bs)

/-! ## StartJob ((*Worker).StartJob with pkg/job.New) -/

/-- Errors a `StartJob` call can surface. -/
inductive StartJobErr
  | userIDRequired
  | commandRequired
  | idGenFailed
  | spawn (e : Nat)
deriving DecidableEq

/-- `job.New(userID, command, args, env)` as `StartJob` invokes it (with
`command = w.cfg.ReexecCommand`): validates `userID` and `command`
non-empty with distinct errors, then allocates a fresh id (`NewID` draws
randomness, so its outcome is the parameter `idRes`); the constructed job
records the id and owner. -/
def jobNew (userID command : String) (idRes : Option Nat) :
    Except StartJobErr (Nat × WJob) :=
  if userID = "" then .error .userIDRequired
  else if command = "" then .error .commandRequired
  else
    match idRes with
    | none => .error .idGenFailed
    | some id => .ok (id, ⟨userID, 0⟩)

/-- `(*Worker).StartJob`: construct the job, call `j.Start()` (outcome
`spawnRes`, `none` = success), and only on success insert the job into
the map (map overwrite is modelled by consing, which shadows on lookup)
and return its id; on any error return the zero `job.ID` (modelled as 0)
and leave the map untouched.  Result: (new map, returned id, error). -/
def startJob (jobs : List (Nat × WJob)) (userID reexecCommand : String)
    (idRes : Option Nat) (spawnRes : Option Nat) :
    List (Nat × WJob) × Nat × Option StartJobErr :=
  match jobNew userID reexecCommand idRes with
  | .error e => (jobs, 0, some e)
  | .ok (id, j) =>
    match spawnRes with
    | some e => (jobs, 0, some (.spawn e))
    | none => ((id, j) :: jobs, id, none)

/-! ## Block-device discovery (getBlockDevices) -/

/-- Go strings are modelled as their character lists (the /sys/block
names and /proc/partitions lines in play are ASCII). -/
abbrev GoStr := List Char

/-- `strings.HasPrefix(s, p)`. -/
def hasPre : GoStr → GoStr → Bool
  | _, [] => true
  | [], _ :: _ => false
  | c :: s, p :: ps => c == p && hasPre s ps

/-- `strings.HasSuffix(s, p)`: `s` ends with `p`. -/
def hasSuf (s p : GoStr) : Bool := hasPre s.reverse p.reverse

/-- `strings.Fields(line)`: the maximal runs of non-whitespace characters
(space and tab are the separators appearing in /proc/partitions). -/
def fieldsOf (line : GoStr) : List GoStr :=
  (List.splitOnP (fun c => c == ' ' || c == '\t') line).filter (fun f => !f.isEmpty)

/-- The kept /sys/block entries: names not beginning with "loop". -/
def keepNames (sysBlock : List GoStr) : List GoStr :=
  sysBlock.filter (fun n => !hasPre n "loop".toList)

/-- The /proc/partitions scan body for one line: the first kept name that
is a suffix of the raw line triggers (the loop `break`s after the first
hit); on a hit, a line with at least two fields emits "MAJOR:MINOR" from
the first two. -/
def emitLine (names : List GoStr) (line : GoStr) : Option GoStr :=
  match names.find? (fun name => hasSuf line name) with
  | none => none
  | some _ =>
    match fieldsOf line with
    | f0 :: f1 :: _ => some (f0 ++ ':' :: f1)
    | _ => none

/-- `getBlockDevices`, given the /sys/block directory listing and the
/proc/partitions lines: filter out loop devices, then scan the lines in
order, appending at most one device per line. -/
def getBlockDevices (sysBlock partLines : List GoStr) : List GoStr :=
  partLines.foldl (fun ret line => ret ++ (emitLine (keepNames sysBlock) line).toList) []

/-- The final whitespace-separated field of a line (the matching rule as
the claim states it). -/
def lastField (line : GoStr) : Option GoStr := (fieldsOf line).getLast?

end JobWorker

namespace JobWorker

theorem setStatus_ratchet (st cur : Nat) (h : st ≤ cur) : setStatus st cur = cur := by
  simp [setStatus, h]

theorem le_setStatus (st cur : Nat) : cur ≤ setStatus st cur := by
  unfold setStatus
  split <;> omega

theorem runStatus_append (se : Nat) (l : List JobEvent) (e : JobEvent) :
    runStatus se (l ++ [e]) = setStatus (eventTarget se e) (runStatus se l) := by
  simp [runStatus, List.foldl_append]

theorem foldl_setStatus_stopped (se : Nat) (hse : se ≠ statusStopped) :
    ∀ (tr : List JobEvent) (acc : Nat),
      tr.foldl (fun cur e => setStatus (eventTarget se e) cur) acc = statusStopped →
      acc = statusStopped ∨ JobEvent.stop ∈ tr := by
  intro tr
  induction tr with
  | nil => intro acc h; exact Or.inl h
  | cons e rest ih =>
    intro acc h
    rcases ih (setStatus (eventTarget se e) acc) h with h' | h'
    · cases e with
      | stop => exact Or.inr (by simp)
      | new =>
        left
        simp only [eventTarget, setStatus, statusNotStarted, statusStopped] at h' ⊢
        split at h' <;> omega
      | startOk =>
        left
        simp only [eventTarget, setStatus, statusRunning, statusStopped] at h' ⊢
        split at h' <;> omega
      | startFail =>
        left
        simp only [statusStopped] at hse
        simp only [eventTarget, setStatus, statusStopped] at h' ⊢
        split at h'
        · exact h'
        · exact absurd h' hse
      | wait =>
        left
        simp only [eventTarget, setStatus, statusCompleted, statusStopped] at h' ⊢
        split at h' <;> omega
    · exact Or.inr (List.mem_cons_of_mem _ h')

/-- C1: the observed status only moves forward: `setStatus` with a value
not greater than the current status leaves the status unchanged, the
status after each event of a trace is at least the status before it, and
the `StatusStopped` value is only ever reached when the trace contains a
`stop()` call (given only that the start-error status constant is a
constant distinct from `StatusStopped`). -/
theorem job_status_ratchet (se : Nat) (hse : se ≠ statusStopped) (tr : List JobEvent) :
    (∀ st cur, st ≤ cur → setStatus st cur = cur) ∧
    (∀ n, runStatus se (tr.take n) ≤ runStatus se (tr.take (n + 1))) ∧
    (runStatus se tr = statusStopped → JobEvent.stop ∈ tr) := by
  refine ⟨setStatus_ratchet, ?_, ?_⟩
  · intro n
    rcases lt_or_ge n tr.length with hn | hn
    · rw [List.take_succ, List.getElem?_eq_getElem hn]
      simp only [Option.toList_some]
      rw [runStatus_append]
      exact le_setStatus _ _
    · rw [List.take_of_length_le hn, List.take_of_length_le (by omega)]
  · intro h
    rcases foldl_setStatus_stopped se hse tr statusUnspecified h with h' | h'
    · simp [statusUnspecified, statusStopped] at h'
    · exact h'

/-- Witness for C1 at a concrete trace: start-error ordinal 5, trace
`[new, startOk, stop]`, whose final status is `StatusStopped`. -/
theorem job_status_ratchet_witness :
    JobEvent.stop ∈ [JobEvent.new, JobEvent.startOk, JobEvent.stop] :=
  (job_status_ratchet 5 (by decide) [JobEvent.new, JobEvent.startOk, JobEvent.stop]).2.2
    (by decide)

theorem take_min_length (d : List Byte) (cap : Nat) :
    d.take (min cap d.length) = d.take cap := by
  rcases le_total cap d.length with h | h
  · rw [min_eq_left h]
  · rw [min_eq_right h, List.take_length, List.take_of_length_le h]

theorem bufReadOffset_eof (data : List Byte) (o c : Nat) :
    (bufReadOffset data o c).2 = true → (bufReadOffset data o c).1 = [] := by
  unfold bufReadOffset
  split
  · intro _; rfl
  · split
    · intro _; rfl
    · intro h; simp at h

theorem rstep_read_noop (s : RState) (cap : Nat)
    (h : cap = 0 ∨ s.log.length ≤ s.offset) :
    rstep s (.read cap) = s := by
  rcases h with h | h
  · simp [rstep, bufReadOffset, h]
  · by_cases hc : cap = 0
    · simp [rstep, bufReadOffset, hc]
    · simp [rstep, bufReadOffset, hc, h]

theorem rstep_read_eq (s : RState) (cap : Nat) (hc : cap ≠ 0)
    (ho : s.offset < s.log.length) :
    rstep s (.read cap) =
      ⟨s.log, s.offset + ((s.log.drop s.offset).take cap).length,
        s.out ++ (s.log.drop s.offset).take cap⟩ := by
  simp [rstep, bufReadOffset, hc, Nat.not_le_of_lt ho]

theorem rstep_read_offset_eq (s : RState) (cap : Nat) :
    (rstep s (.read cap)).offset = s.offset + (bufReadOffset s.log s.offset cap).1.length := by
  simp only [rstep]
  by_cases he : (bufReadOffset s.log s.offset cap).2 = true
  · rw [if_pos he, bufReadOffset_eof _ _ _ he]
    rfl
  · rw [if_neg he]

theorem rstep_inv (s : RState) (op : ROp) (h : RInv s) : RInv (rstep s op) := by
  obtain ⟨h1, h2⟩ := h
  cases op with
  | write p =>
    refine ⟨?_, ?_⟩
    · simp only [rstep]
      rw [List.take_append_of_le_length h2]
      exact h1
    · simp only [rstep, List.length_append]
      omega
  | read cap =>
    by_cases hno : cap = 0 ∨ s.log.length ≤ s.offset
    · rw [rstep_read_noop s cap hno]
      exact ⟨h1, h2⟩
    · push_neg at hno
      obtain ⟨hc, ho⟩ := hno
      rw [rstep_read_eq s cap hc ho]
      refine ⟨?_, ?_⟩
      · show s.out ++ _ = List.take (s.offset + _) s.log
        rw [List.take_add, h1]
        congr 1
        rw [List.length_take]
        exact (take_min_length _ _).symm
      · show s.offset + _ ≤ s.log.length
        simp only [List.length_take, List.length_drop]
        omega

theorem runR_inv (ops : List ROp) : RInv (runR ops) := by
  suffices H : ∀ (l : List ROp) (s : RState), RInv s → RInv (l.foldl rstep s) by
    exact H ops rinit ⟨rfl, Nat.le_refl 0⟩
  intro l
  induction l with
  | nil => intro s h; exact h
  | cons op rest ih => intro s h; exact ih _ (rstep_inv s op h)

theorem rstep_offset_le (s : RState) (op : ROp) : s.offset ≤ (rstep s op).offset := by
  cases op with
  | write p => exact Nat.le_refl _
  | read cap =>
    simp only [rstep]
    split <;> omega

theorem runR_log_eq_writesConcat (ops : List ROp) : (runR ops).log = writesConcat ops := by
  suffices H : ∀ (l : List ROp) (s : RState),
      (l.foldl rstep s).log = l.foldl (fun acc op =>
        match op with | .write p => acc ++ p | .read _ => acc) s.log by
    exact H ops rinit
  intro l
  induction l with
  | nil => intro s; rfl
  | cons op rest ih =>
    intro s
    cases op with
    | write p => exact ih _
    | read cap => exact ih _

theorem runR_take_succ (ops : List ROp) (n : Nat) (hn : n < ops.length) :
    runR (ops.take (n + 1)) = rstep (runR (ops.take n)) ops[n] := by
  unfold runR
  rw [List.take_succ, List.getElem?_eq_getElem hn]
  simp only [Option.toList_some]
  rw [List.foldl_append]
  rfl

/-- C2: along every interleaving of buffer writes and reader reads, the
reader's offset is monotonically non-decreasing, a read at position `n` of
the trace advances the offset by exactly the length of the byte list that
`ReadOffset` returned there, and the bytes returned by the reader's reads,
concatenated, are a byte-wise prefix of the concatenation of all bytes
written. -/
theorem reader_offset_monotone_out_pre (ops : List ROp) :
    (∀ n, (runR (ops.take n)).offset ≤ (runR (ops.take (n + 1))).offset) ∧
    (∀ n cap, ops[n]? = some (ROp.read cap) →
      (runR (ops.take (n + 1))).offset =
        (runR (ops.take n)).offset +
          (bufReadOffset (runR (ops.take n)).log (runR (ops.take n)).offset cap).1.length) ∧
    (∃ t, (runR ops).out ++ t = writesConcat ops) := by
  refine ⟨?_, ?_, ?_⟩
  · intro n
    rcases lt_or_ge n ops.length with hn | hn
    · rw [runR_take_succ ops n hn]
      exact rstep_offset_le _ _
    · rw [List.take_of_length_le hn, List.take_of_length_le (by omega)]
  · intro n cap hop
    have hn : n < ops.length := by
      by_contra hn
      rw [List.getElem?_eq_none (by omega)] at hop
      exact Option.noConfusion hop
    rw [List.getElem?_eq_getElem hn] at hop
    rw [runR_take_succ ops n hn, Option.some_inj.mp hop]
    exact rstep_read_offset_eq _ _
  · obtain ⟨h1, h2⟩ := runR_inv ops
    refine ⟨(runR ops).log.drop (runR ops).offset, ?_⟩
    rw [h1, List.take_append_drop, runR_log_eq_writesConcat]

/-- Witness for C2 at a concrete trace: write `[10, 20]`, read with a
3-byte destination, write `[30]`; the read at index 1 returned 2 bytes and
advanced the offset from 0 to 2. -/
theorem reader_offset_monotone_out_pre_witness :
    (runR ([ROp.write [10, 20], ROp.read 3, ROp.write [30]].take 2)).offset =
      (runR ([ROp.write [10, 20], ROp.read 3, ROp.write [30]].take 1)).offset +
        (bufReadOffset (runR ([ROp.write [10, 20], ROp.read 3, ROp.write [30]].take 1)).log
          (runR ([ROp.write [10, 20], ROp.read 3, ROp.write [30]].take 1)).offset 3).1.length :=
  (reader_offset_monotone_out_pre [ROp.write [10, 20], ROp.read 3, ROp.write [30]]).2.1
    1 3 rfl

theorem readToEnd_eq_drop (data : List Byte) (cap : Nat) (hc : 0 < cap) :
    ∀ offset, readToEnd data cap offset = data.drop offset := by
  have H : ∀ (n offset : Nat), data.length - offset ≤ n →
      readToEnd data cap offset = data.drop offset := by
    intro n
    induction n with
    | zero =>
      intro offset h
      rw [readToEnd, dif_pos (Or.inr (by omega)), List.drop_eq_nil_of_le (by omega)]
    | succ n ih =>
      intro offset h
      by_cases ho : data.length ≤ offset
      · rw [readToEnd, dif_pos (Or.inr ho), List.drop_eq_nil_of_le ho]
      · push_neg at ho
        rw [readToEnd, dif_neg (by push_neg; exact ⟨by omega, by omega⟩)]
        have hlen : ((data.drop offset).take cap).length = min cap (data.length - offset) := by
          simp [List.length_take, List.length_drop]
        rw [ih (offset + ((data.drop offset).take cap).length)
          (by rw [hlen]; omega)]
        rw [← List.drop_drop, List.length_take]
        rw [← take_min_length (data.drop offset) cap]
        exact List.take_append_drop _ _
  intro offset
  exact H (data.length - offset) offset (Nat.le_refl _)

theorem walkChunks_eq (chunks : List (List Byte)) :
    ∀ offset cap, walkChunks chunks offset cap = (chunks.flatten.drop offset).take cap := by
  induction chunks with
  | nil => intro offset cap; simp [walkChunks]
  | cons d rest ih =>
    intro offset cap
    simp only [walkChunks, List.flatten_cons]
    rw [List.drop_append_eq_append_drop, List.take_append_eq_append_take]
    by_cases hskip : d.length ≤ offset
    · rw [if_pos hskip, ih]
      rw [List.drop_eq_nil_of_le hskip]
      simp
    · rw [if_neg hskip]
      push_neg at hskip
      rw [Nat.sub_eq_zero_of_le (Nat.le_of_lt hskip), List.drop_zero]
      by_cases hfull : ((d.drop offset).take cap).length = cap
      · rw [if_pos hfull]
        have hc : cap ≤ (d.drop offset).length := by
          rw [List.length_take] at hfull
          omega
        rw [Nat.sub_eq_zero_of_le hc, List.take_zero, List.append_nil]
      · rw [if_neg hfull, ih, List.drop_zero]
        have hlt : (d.drop offset).length < cap := by
          rw [List.length_take] at hfull
          omega
        rw [List.take_of_length_le (Nat.le_of_lt hlt)]

theorem mkBufL_chunks (writes : List (List Byte)) : (mkBufL writes).chunks = writes := by
  suffices H : ∀ (ws acc : List (List Byte)),
      (ws.foldl ByteBufferL.write ⟨acc⟩).chunks = acc ++ ws by
    simpa using H writes []
  intro ws
  induction ws with
  | nil => intro acc; simp
  | cons w rest ih =>
    intro acc
    rw [List.foldl_cons, ByteBufferL.write, ih]
    simp

theorem mkBufC_buf (writes : List (List Byte)) : (mkBufC writes).buf = writes.flatten := by
  suffices H : ∀ (ws : List (List Byte)) (acc : List Byte),
      (ws.foldl ByteBufferC.write ⟨acc⟩).buf = acc ++ ws.flatten by
    simpa using H writes []
  intro ws
  induction ws with
  | nil => intro acc; simp
  | cons w rest ih =>
    intro acc
    rw [List.foldl_cons, ByteBufferC.write, ih]
    simp

theorem mkBufL_size (writes : List (List Byte)) :
    (mkBufL writes).size = writes.flatten.length := by
  rw [ByteBufferL.size, mkBufL_chunks, List.length_flatten]

/-- C4 counterexample: with an empty destination the code never reports
EOF, even at an offset past the end: on the empty buffer at offset 0 both
variants return no-EOF although `offset >= size()` holds, refuting the
claimed equivalence for every destination. -/
theorem byteBuffer_empty_dst_counterexample :
    (mkBufL []).size ≤ 0 ∧ ((mkBufL []).readOffset 0 0).2 = false ∧
    (mkBufC []).buf.length ≤ 0 ∧ ((mkBufC []).readOffset 0 0).2 = false := by
  decide

/-- C4 (amended): for every buffer state reached by writes, both
`ReadOffset` variants agree; with an empty destination the result is 0
bytes and no EOF; with a non-empty destination the EOF flag (with 0
bytes) is returned iff `offset >= size()`, and otherwise exactly
`min(len(dst), size()-offset)` bytes of the stored data starting at
`offset` are returned, with no EOF flag. -/
theorem byteBuffer_readOffset_spec (writes : List (List Byte)) (offset cap : Nat) :
    ((mkBufL writes).readOffset offset 0 = ([], false) ∧
      (mkBufC writes).readOffset offset 0 = ([], false)) ∧
    ((mkBufL writes).readOffset offset (cap + 1) =
      (mkBufC writes).readOffset offset (cap + 1)) ∧
    ((mkBufL writes).size = (mkBufC writes).buf.length) ∧
    (((mkBufC writes).readOffset offset (cap + 1)).2 = true ↔
      (mkBufC writes).buf.length ≤ offset) ∧
    ((mkBufC writes).buf.length ≤ offset →
      (mkBufC writes).readOffset offset (cap + 1) = ([], true)) ∧
    (offset < (mkBufC writes).buf.length →
      (mkBufC writes).readOffset offset (cap + 1) =
        (((mkBufC writes).buf.drop offset).take (cap + 1), false) ∧
      (((mkBufC writes).buf.drop offset).take (cap + 1)).length =
        min (cap + 1) ((mkBufC writes).buf.length - offset)) := by
  have hC : (mkBufC writes).buf = writes.flatten := mkBufC_buf writes
  have hsz : (mkBufL writes).size = writes.flatten.length := mkBufL_size writes
  refine ⟨⟨?_, ?_⟩, ?_, ?_, ?_, ?_, ?_⟩
  · simp [ByteBufferL.readOffset]
  · simp [ByteBufferC.readOffset]
  · rw [ByteBufferL.readOffset, ByteBufferC.readOffset,
      if_neg (Nat.succ_ne_zero cap), if_neg (Nat.succ_ne_zero cap), hC, hsz]
    by_cases hle : writes.flatten.length ≤ offset
    · rw [if_pos hle, if_pos hle]
    · rw [if_neg hle, if_neg hle]
      push_neg at hle
      rw [mkBufL_chunks, walkChunks_eq]
      have hlen : 0 < ((writes.flatten.drop offset).take (cap + 1)).length := by
        simp only [List.length_take, List.length_drop]
        omega
      rw [if_pos hlen]
  · rw [hsz, hC]
  · rw [ByteBufferC.readOffset, if_neg (Nat.succ_ne_zero cap)]
    by_cases hle : (mkBufC writes).buf.length ≤ offset
    · simp [hle]
    · simp [hle]
  · intro hle
    rw [ByteBufferC.readOffset, if_neg (Nat.succ_ne_zero cap), if_pos hle]
  · intro hlt
    refine ⟨?_, ?_⟩
    · rw [ByteBufferC.readOffset, if_neg (Nat.succ_ne_zero cap),
        if_neg (Nat.not_le_of_lt hlt)]
    · simp only [List.length_take, List.length_drop]

/-- Witness for C4 at a concrete buffer: writes `[[10, 20], [30]]`, offset
1, a 2-byte destination: both bytes after the offset are returned with no
EOF flag. -/
theorem byteBuffer_readOffset_spec_witness :
    (mkBufC [[10, 20], [30]]).readOffset 1 2 = ([20, 30], false) := by
  have h := ((byteBuffer_readOffset_spec [[10, 20], [30]] 1 1).2.2.2.2.2 (by decide)).1
  rw [h]
  rfl

/-- C3: two readers on the same stream buffer, each read to end of stream
with its own (positive) destination size, return identical byte sequences,
both equal to the full contents of the underlying byte log. -/
theorem readers_read_to_end_agree (data : List Byte) (c1 c2 : Nat) :
    readToEnd data (c1 + 1) 0 = readToEnd data (c2 + 1) 0 ∧
    readToEnd data (c1 + 1) 0 = data := by
  have h1 := readToEnd_eq_drop data (c1 + 1) (Nat.succ_pos c1) 0
  have h2 := readToEnd_eq_drop data (c2 + 1) (Nat.succ_pos c2) 0
  rw [h1, h2, List.drop_zero]
  exact ⟨rfl, rfl⟩

/-- C5 counterexample: for a job killed by a signal (here signal 9, e.g.
after `stop()`), `wait` stores exit code `-1` — `ExitCode()` returns
`some (-1)`, not nil as the claim requires. -/
theorem wait_exitCode_signal_counterexample :
    jobExitCode true (WaitResult.exitErr (ProcState.signaled 9)) = some (-1) ∧
    jobExitCode true (WaitResult.exitErr (ProcState.signaled 9)) ≠ none := by
  decide

/-- C5 (amended): for a finished job, a successful wait stores exit code
0; a typed child-exit error stores that error's numeric status — the exit
code when the process exited, and `-1` when it was killed by a signal;
the exit code is absent exactly when the wait error is not a typed
child-exit error (e.g. a lost pid). -/
theorem wait_exitCode_spec (w : WaitResult) :
    (w = .ok → jobExitCode true w = some 0) ∧
    (∀ ps, w = .exitErr ps → jobExitCode true w = some ps.exitCode) ∧
    (∀ c, w = .exitErr (.exited c) → jobExitCode true w = some c) ∧
    (∀ s, w = .exitErr (.signaled s) → jobExitCode true w = some (-1)) ∧
    (jobExitCode true w = none ↔ w = .otherErr) := by
  cases w with
  | ok => simp [jobExitCode, waitExitCode]
  | exitErr ps =>
    cases ps <;> simp [jobExitCode, waitExitCode, ProcState.exitCode]
  | otherErr => simp [jobExitCode, waitExitCode]

/-- Witness for C5 at a concrete wait outcome: an exit error carrying
status 3 yields stored exit code 3. -/
theorem wait_exitCode_spec_witness :
    jobExitCode true (WaitResult.exitErr (ProcState.exited 3)) = some 3 :=
  (wait_exitCode_spec (WaitResult.exitErr (ProcState.exited 3))).2.2.1 3 rfl

/-- C6 counterexample: when the first `Start` failed with spawn error 7,
a second call returns that same spawn error, not `ErrAlreadyStarted`, so
the claim fails for a failed first call. -/
theorem start_after_failed_counterexample :
    (startStep none (startStep (some 7) startInit).1).2 = some (StartErr.spawn 7) ∧
    (startStep none (startStep (some 7) startInit).1).2 ≠ some StartErr.alreadyStarted := by
  decide

/-- C6 (amended): the child is launched exactly once, by the first call,
and the job state is frozen afterwards; the first call returns the spawn
outcome; any later call returns `ErrAlreadyStarted` when the first call
succeeded, and the first call's error when it failed. -/
theorem start_once_spec (r0 r : Option Nat) (e : Nat) :
    (startStep r0 startInit).1.launches = 1 ∧
    (startStep r0 startInit).1.onceDone = true ∧
    (∀ s, s.onceDone = true → (startStep r s).1 = s) ∧
    ((startStep r0 startInit).2 = r0.map StartErr.spawn) ∧
    (r0 = none → (startStep r (startStep r0 startInit).1).2 = some StartErr.alreadyStarted) ∧
    (r0 = some e → (startStep r (startStep r0 startInit).1).2 = some (StartErr.spawn e)) := by
  refine ⟨by simp [startStep, startInit], by simp [startStep, startInit], ?_, ?_, ?_, ?_⟩
  · intro s hs
    simp [startStep, hs]
  · simp [startStep, startInit]
  · intro h
    subst h
    simp [startStep, startInit]
  · intro h
    subst h
    simp [startStep, startInit]

/-- Witness for C6 at concrete spawn outcomes: a successful first call
makes the second call return `ErrAlreadyStarted`. -/
theorem start_once_spec_witness :
    (startStep (some 4) (startStep none startInit).1).2 = some StartErr.alreadyStarted :=
  (start_once_spec none (some 4) 0).2.2.2.2.1 rfl

/-- C7: `stopJob`, `jobStatus` and `jobOutput` return the identical
`ErrJobNotFound` value both when the job id is absent from the map and
when the stored job's owner differs from the caller, making the two cases
indistinguishable from the returned value; when the id exists and the
owner matches, each call delegates to the job. -/
theorem worker_auth_uniform (jobs : List (Nat × WJob)) (uid : String) (jid : Nat)
    (stop : WJob → Option Nat) (status : WJob → Nat × Option Int) (reader : WJob → Nat) :
    (jobs.lookup jid = none →
      stopJob jobs uid jid stop = .error .jobNotFound ∧
      jobStatus jobs uid jid status = .error .jobNotFound ∧
      jobOutput jobs uid jid reader = .error .jobNotFound) ∧
    (∀ j, jobs.lookup jid = some j → j.userID ≠ uid →
      stopJob jobs uid jid stop = .error .jobNotFound ∧
      jobStatus jobs uid jid status = .error .jobNotFound ∧
      jobOutput jobs uid jid reader = .error .jobNotFound) ∧
    (∀ j, jobs.lookup jid = some j → j.userID = uid →
      stopJob jobs uid jid stop = .ok (stop j) ∧
      jobStatus jobs uid jid status = .ok (status j) ∧
      jobOutput jobs uid jid reader = .ok (reader j)) := by
  refine ⟨?_, ?_, ?_⟩
  · intro h
    simp [stopJob, jobStatus, jobOutput, getJob, h]
  · intro j hj hne
    simp [stopJob, jobStatus, jobOutput, getJob, hj, hne]
  · intro j hj he
    simp [stopJob, jobStatus, jobOutput, getJob, hj, he]

/-- Witness for C7 at a concrete map: one job with id 1 owned by "u"; an
owner mismatch and a missing id both return `ErrJobNotFound`, and the
matching owner delegates. -/
theorem worker_auth_uniform_witness :
    stopJob [(1, WJob.mk "u" 0)] "v" 1 (fun _ => none) = .error .jobNotFound ∧
    stopJob [(1, WJob.mk "u" 0)] "u" 2 (fun _ => none) = .error .jobNotFound ∧
    jobOutput [(1, WJob.mk "u" 0)] "u" 1 (fun _ => 5) = .ok 5 := by
  refine ⟨?_, ?_, ?_⟩
  · exact ((worker_auth_uniform [(1, WJob.mk "u" 0)] "v" 1 (fun _ => none)
      (fun _ => (0, none)) (fun _ => 5)).2.1 (WJob.mk "u" 0) (by decide) (by decide)).1
  · exact ((worker_auth_uniform [(1, WJob.mk "u" 0)] "u" 2 (fun _ => none)
      (fun _ => (0, none)) (fun _ => 5)).1 (by decide)).1
  · exact ((worker_auth_uniform [(1, WJob.mk "u" 0)] "u" 1 (fun _ => none)
      (fun _ => (0, none)) (fun _ => 5)).2.2 (WJob.mk "u" 0) (by decide) (by decide)).2.2

/-- C9 counterexample: a cpu fraction of exactly 0 lies outside the
interval (0,1], yet `New` succeeds — 0 means "no cpu max" in the code, so
the claimed equivalence fails at 0. -/
theorem workerNew_cpu_zero_counterexample :
    workerNew ⟨"cmd", 0⟩ (.ok []) = .ok (⟨"cmd", 0⟩, []) ∧
    ¬ (0 < (0 : ℚ) ∧ (0 : ℚ) ≤ 1) := by
  refine ⟨?_, ?_⟩
  · unfold workerNew
    rw [if_neg (by decide), if_neg (by norm_num)]
  · norm_num

/-- C9 (amended): with a non-empty reexec command, `New` returns
`ErrInvalidCPUMax` iff the cpu fraction is negative or greater than 1; a
fraction of exactly 0 (meaning "no max") is accepted. -/
theorem workerNew_invalid_cpu_iff (cfg : WConfig) (bd : Except Nat (List String))
    (h : cfg.reexecCommand ≠ "") :
    workerNew cfg bd = .error .invalidCPUMax ↔ (cfg.cpuMax < 0 ∨ 1 < cfg.cpuMax) := by
  unfold workerNew
  rw [if_neg h]
  by_cases hc : cfg.cpuMax < 0 ∨ 1 < cfg.cpuMax
  · rw [if_pos hc]
    simpa using hc
  · rw [if_neg hc]
    cases bd with
    | error e => simpa using hc
    | ok bs => simpa using hc

/-- Witness for C9 at a concrete config: cpu fraction 2 is rejected with
`ErrInvalidCPUMax`. -/
theorem workerNew_invalid_cpu_iff_witness :
    workerNew ⟨"cmd", 2⟩ (.ok []) = .error .invalidCPUMax :=
  (workerNew_invalid_cpu_iff ⟨"cmd", 2⟩ (.ok []) (by decide)).mpr (by norm_num)

/-- C10: whenever `StartJob` returns an error, it returns the zero job id
and leaves the job map unchanged — so the failed job is never observable
through `stopJob`, `jobStatus` or `jobOutput`; the map gains an entry
only when the child process started successfully. -/
theorem startJob_failure_invisible (jobs : List (Nat × WJob)) (u c : String)
    (idRes spawnRes : Option Nat) :
    ((startJob jobs u c idRes spawnRes).2.2 ≠ none →
      (startJob jobs u c idRes spawnRes).2.1 = 0 ∧
      (startJob jobs u c idRes spawnRes).1 = jobs) ∧
    ((startJob jobs u c idRes spawnRes).1 ≠ jobs →
      spawnRes = none ∧ (startJob jobs u c idRes spawnRes).2.2 = none) ∧
    ((startJob jobs u c idRes spawnRes).2.2 ≠ none →
      ∀ uid jid stop status reader,
        stopJob (startJob jobs u c idRes spawnRes).1 uid jid stop =
          stopJob jobs uid jid stop ∧
        jobStatus (startJob jobs u c idRes spawnRes).1 uid jid status =
          jobStatus jobs uid jid status ∧
        jobOutput (startJob jobs u c idRes spawnRes).1 uid jid reader =
          jobOutput jobs uid jid reader) := by
  cases hnew : jobNew u c idRes with
  | error e =>
    refine ⟨?_, ?_, ?_⟩
    · intro _
      simp [startJob, hnew]
    · intro hmap
      exact absurd (by simp [startJob, hnew]) hmap
    · intro _ uid jid stop status reader
      simp [startJob, hnew]
  | ok idj =>
    obtain ⟨id, j⟩ := idj
    cases spawnRes with
    | some e =>
      refine ⟨?_, ?_, ?_⟩
      · intro _
        simp [startJob, hnew]
      · intro hmap
        exact absurd (by simp [startJob, hnew]) hmap
      · intro _ uid jid stop status reader
        simp [startJob, hnew]
    | none =>
      refine ⟨?_, ?_, ?_⟩
      · intro hne
        exact absurd (by simp [startJob, hnew]) hne
      · intro _
        simp [startJob, hnew]
      · intro hne
        exact absurd (by simp [startJob, hnew]) hne

/-- Witness for C10 at a concrete failing call: empty owner on an empty
map returns id 0, leaves the map empty, and `jobStatus` still reports
`ErrJobNotFound` for any id. -/
theorem startJob_failure_invisible_witness :
    (startJob [] "" "cmd" (some 1) none).2.1 = 0 ∧
    (startJob [] "" "cmd" (some 1) none).1 = [] :=
  (startJob_failure_invisible [] "" "cmd" (some 1) none).1 (by decide)

theorem foldl_emit_eq_filterMap {α β : Type} (f : α → Option β) (l : List α) :
    ∀ acc : List β,
      l.foldl (fun ret a => ret ++ (f a).toList) acc = acc ++ l.filterMap f := by
  induction l with
  | nil => intro acc; simp
  | cons a rest ih =>
    intro acc
    cases hfa : f a <;> simp [List.filterMap_cons, hfa, ih]

theorem emitLine_eq_any (names : List GoStr) (line : GoStr) :
    emitLine names line =
      if names.any (fun name => hasSuf line name) then
        match fieldsOf line with
        | f0 :: f1 :: _ => some (f0 ++ ':' :: f1)
        | _ => none
      else none := by
  unfold emitLine
  cases hf : names.find? (fun name => hasSuf line name) with
  | none =>
    rw [if_neg]
    intro hany
    rw [List.any_eq_true] at hany
    obtain ⟨x, hx, hpx⟩ := hany
    rw [List.find?_eq_none] at hf
    exact absurd hpx (by simpa using hf x hx)
  | some name =>
    rw [if_pos (List.any_eq_true.mpr
      ⟨name, List.mem_of_find?_eq_some hf, List.find?_some hf⟩)]

/-- C8 counterexample: kept name "vda" and line "253 0 100 xvda": the
line's final whitespace-separated field is "xvda", not "vda", yet the
code emits "253:0" for it because it suffix-matches the raw line text. -/
theorem getBlockDevices_suffix_counterexample :
    getBlockDevices ["vda".toList] ["253 0 100 xvda".toList] = ["253:0".toList] ∧
    lastField "253 0 100 xvda".toList = some "xvda".toList ∧
    lastField "253 0 100 xvda".toList ≠ some "vda".toList := by
  decide

/-- C8 (amended): block-device discovery keeps exactly the /sys/block
entries whose names do not begin with "loop", and emits "MAJOR:MINOR"
from the first two fields of every /proc/partitions line (having at least
two fields) whose raw text ends with one of the kept names — a suffix
match on the whole line, not an equality test against the final field —
at most one device per line, in line order. -/
theorem getBlockDevices_spec (sysBlock partLines : List GoStr) :
    (∀ n, n ∈ keepNames sysBlock ↔ (n ∈ sysBlock ∧ hasPre n "loop".toList = false)) ∧
    getBlockDevices sysBlock partLines =
      partLines.filterMap (fun line =>
        if (keepNames sysBlock).any (fun name => hasSuf line name) then
          match fieldsOf line with
          | f0 :: f1 :: _ => some (f0 ++ ':' :: f1)
          | _ => none
        else none) := by
  constructor
  · intro n
    simp [keepNames, List.mem_filter]
  · unfold getBlockDevices
    rw [foldl_emit_eq_filterMap (emitLine (keepNames sysBlock)) partLines []]
    rw [List.nil_append]
    congr 1
    funext line
    exact emitLine_eq_any _ _

end JobWorker
